import Mathlib

/-!
Shallow embedding of `src/xbsearch.py`: a pipeline that reads search words,
queries a search provider, extracts `scheme://netloc/` domains from result
URLs, optionally filters them by a TLD suffix derived from a `site:*.tld`
dork, and writes the sorted unique domain set to an output file.

External collaborators are modelled as parameters: the search provider is a
function `String → Except String (List Hit)`, where `Except.error` models the
provider raising an exception.  Python's `urllib.parse.urlparse` is modelled
for the two components the program reads (scheme and netloc), following
CPython's `urlsplit` algorithm; NFKC and bracketed-host validation and
control-character preprocessing are not modelled (no input in this
development involves them).  Python string primitives (`str.strip`,
`str.lower`, `str.endswith`, comparison, `sorted`) are modelled by
character-list functions so that every definition evaluates by kernel
reduction; `str.lower` uses the ASCII case mapping.  A Python `set` is
modelled as a duplicate-free list with insertion-order representative; the
development proves the observable output independent of that order.
-/

deriving instance DecidableEq for Except

/-- A search hit as returned by the provider: a record that may carry a URL
under the key `href` (the `ddgs` hit dictionaries of the source). -/
structure Hit where
  href : Option String
deriving DecidableEq

/-- Diagnostics the program prints to stderr: the unconditional search-error
print of `perform_duckduckgo_search` (line 56), the verbose-only warning for
a URL whose parse raises `ValueError` (line 177), and the empty-input error
(line 126).  The outer `except` of the word loop (lines 178-181) is
unreachable in this model because the adapter itself catches every provider
exception. -/
inductive Diag where
  | searchError : String → Diag
  | malformedUrl : String → Diag
  | emptyInput : Diag
deriving DecidableEq

/-- An ASCII whitespace character, modelling the characters `str.strip`
removes (the inputs of this development are ASCII). -/
def isSpaceChar (c : Char) : Bool :=
  c == ' ' || c == '\t' || c == '\n' || c == '\r' || c == '\x0b' || c == '\x0c'

/-- Python `str.strip()`: drop whitespace from both ends. -/
def pyStrip (s : String) : String :=
  String.mk (((s.toList.dropWhile isSpaceChar).reverse.dropWhile isSpaceChar).reverse)

/-- Python `str.lower()` (ASCII case mapping). -/
def pyLower (s : String) : String :=
  String.mk (s.toList.map Char.toLower)

/-- Python `str.endswith(post)`: `post` is a suffix of `s`. -/
def pyEndsWith (s post : String) : Bool :=
  post.toList.isSuffixOf s.toList

/-- Lexicographic strict comparison of character lists by code point,
modelling Python's `<` on strings. -/
def listLtB : List Char → List Char → Bool
  | [], [] => false
  | [], _ :: _ => true
  | _ :: _, [] => false
  | a :: as, b :: bs =>
    if a < b then true
    else if b < a then false
    else listLtB as bs

/-- Python's `<=` on strings, as a boolean. -/
def strLeB (s t : String) : Bool :=
  !(listLtB t.toList s.toList)

/-- Python's `sorted` on a list of strings: an insertion sort under the
lexicographic order. -/
def pySorted (l : List String) : List String :=
  l.insertionSort (fun s t => strLeB s t = true)

/-- Adding an element to a Python `set`, modelled on a duplicate-free list:
a new element is appended, a present one is ignored. -/
def setAdd (s : List String) (x : String) : List String :=
  if x ∈ s then s else s ++ [x]

/-- Characters CPython's `urllib.parse` allows in a URL scheme after the
first character (the `scheme_chars` constant of `urllib/parse.py`). -/
def schemeChars : List Char :=
  "abcdefghijklmnopqrstuvwxyzABCDEFGHIJKLMNOPQRSTUVWXYZ0123456789+-.".toList

/-- Membership in `schemeChars`. -/
def isSchemeChar (c : Char) : Bool :=
  schemeChars.contains c

/-- Scheme splitting of CPython's `urlsplit`: when the URL has a `:` at some
position `i > 0`, its first character is a letter, and every character
strictly between is a scheme character, the scheme is the lower-cased text
before the `:` and the rest follows the `:`; otherwise the scheme is empty
and the whole input remains. -/
def splitScheme (l : List Char) : List Char × List Char :=
  match l.findIdx? (· == ':') with
  | none => ([], l)
  | some i =>
    match l with
    | [] => ([], l)
    | c :: _ =>
      if 0 < i then
        if c.isAlpha && ((l.take i).drop 1).all isSchemeChar then
          ((l.take i).map Char.toLower, l.drop (i + 1))
        else ([], l)
      else ([], l)

/-- A character that ends the netloc component: CPython's `_splitnetloc`
stops at the first of `/`, `?` or `#`. -/
def isNetlocEnd (c : Char) : Bool :=
  c == '/' || c == '?' || c == '#'

/-- The netloc component of a remainder starting with `//`: CPython's
`_splitnetloc(url, 2)`, the text after the `//` up to the first netloc-ending
character. -/
def netlocOf (rest : List Char) : List Char :=
  (rest.drop 2).takeWhile (fun c => !(isNetlocEnd c))

/-- Presence of an unbalanced square bracket, on which CPython's `urlsplit`
raises `ValueError ("Invalid IPv6 URL")`. -/
def badBrackets (netloc : List Char) : Bool :=
  (netloc.contains '[' && !(netloc.contains ']'))
    || (netloc.contains ']' && !(netloc.contains '['))

/-- URL splitting modelled from CPython's `urllib.parse.urlsplit`, restricted
to the two components `xbsearch.py` reads: `(scheme, netloc)`.  A netloc with
an unbalanced square bracket raises `ValueError` in CPython, modelled as
`Except.error ()`. -/
def urlsplit (url : String) : Except Unit (String × String) :=
  let p := splitScheme url.toList
  if p.2.take 2 = ['/', '/'] then
    if badBrackets (netlocOf p.2) then Except.error ()
    else Except.ok (String.mk p.1, String.mk (netlocOf p.2))
  else Except.ok (String.mk p.1, "")

/-- Reading the input file (line 120): each line is stripped and blank lines
are dropped. -/
def readWords (lines : List String) : List String :=
  (lines.map pyStrip).filter (fun s => s != "")

/-- A character of the regex class `[a-zA-Z0-9\-\.]` used by the dork-TLD
pattern (line 135). -/
def isTldChar (c : Char) : Bool :=
  c.isAlpha || c.isDigit || c == '-' || c == '.'

/-- The literal part of the dork-TLD pattern, `site:*.`, as characters. -/
def sitePat : List Char := "site:*.".toList

/-- Leftmost match of the regex `site:\*\.([a-zA-Z0-9\-\.]+)` in a character
list, as performed by `re.search` on the dork: at the first position where
the literal `site:*.` is followed by at least one TLD character, return the
greedy capture, i.e. the maximal run of TLD characters after the literal. -/
def findSiteMatch : List Char → Option (List Char)
  | [] => none
  | c :: cs =>
    if sitePat.isPrefixOf (c :: cs) then
      let tld := ((c :: cs).drop sitePat.length).takeWhile isTldChar
      if tld.isEmpty then findSiteMatch cs else some tld
    else findSiteMatch cs

/-- Derivation of the dork TLD filter (lines 132-137), performed once before
the word loop: with no dork there is no filter; with a dork, a match of the
pattern yields the filter `"." ++ capture.lower()`, and otherwise there is no
filter. -/
def buildFilter (dork : Option String) : Option String :=
  match dork with
  | none => none
  | some d =>
    match findSiteMatch d.toList with
    | some tld => some ("." ++ pyLower (String.mk tld))
    | none => none

/-- The post-filter test applied to a netloc (line 169): with no filter every
netloc is accepted; with filter `f`, the lower-cased netloc must end with
`f`. -/
def acceptsHost (fl : Option String) (netloc : String) : Bool :=
  match fl with
  | some f => pyEndsWith (pyLower netloc) f
  | none => true

/-- Query construction (line 157): the dork, when present, is appended to the
word with a separating space. -/
def mkQuery (dork : Option String) (word : String) : String :=
  match dork with
  | some d => word ++ " " ++ d
  | none => word

/-- The search adapter modelled from `perform_duckduckgo_search` (lines
29-59): on provider success the `href` fields of the hits are collected into
a set and returned as a duplicate-free list; on any provider exception a
diagnostic is printed to stderr (unconditionally) and the empty list is
returned. -/
def perform_duckduckgo_search (provider : String → Except String (List Hit))
    (query : String) : List String × List Diag :=
  match provider query with
  | Except.ok results => ((results.filterMap Hit.href).foldl setAdd [], [])
  | Except.error _ => ([], [Diag.searchError query])

/-- The domain a single raw URL contributes (lines 163-174), separated from
diagnostics: `none` when parsing raises, when the netloc is empty, or when
the filter rejects the netloc; otherwise the canonical `scheme://netloc/`
string. -/
def stepUrl (fl : Option String) (url : String) : Option String :=
  match urlsplit url with
  | Except.error _ => none
  | Except.ok (sch, netloc) =>
    if netloc = "" then none
    else if acceptsHost fl netloc then some (sch ++ "://" ++ netloc ++ "/")
    else none

/-- Per-URL loop body (lines 163-177): a `ValueError` from parsing is caught
and logged only when verbose; a URL whose netloc is non-empty and passes the
filter contributes `scheme://netloc/` to the accumulated set. -/
def urlStep (fl : Option String) (verbose : Bool)
    (st : List String × List Diag) (url : String) : List String × List Diag :=
  match urlsplit url with
  | Except.error _ =>
    (st.1, st.2 ++ if verbose then [Diag.malformedUrl url] else [])
  | Except.ok (sch, netloc) =>
    if netloc = "" then st
    else if acceptsHost fl netloc then
      (setAdd st.1 (sch ++ "://" ++ netloc ++ "/"), st.2)
    else st

/-- State threaded through the per-word loop: the accumulated domain set, the
diagnostics printed so far, and the queries issued so far. -/
structure LoopState where
  found : List String
  diags : List Diag
  queries : List String
deriving DecidableEq

/-- Per-word loop body (lines 145-181): build the query, run the search
adapter, and pipe every returned URL through the per-URL body. -/
def wordStep (provider : String → Except String (List Hit)) (dork : Option String)
    (fl : Option String) (verbose : Bool) (st : LoopState) (word : String) : LoopState :=
  let q := mkQuery dork word
  let res := perform_duckduckgo_search provider q
  let fd := res.1.foldl (urlStep fl verbose) (st.found, st.diags ++ res.2)
  ⟨fd.1, fd.2, st.queries ++ [q]⟩

/-- The observable outcome of a run: the exit code, the sorted domain list
(when an output file is written), the rendered output-file text, the queries
issued, and the diagnostics printed to stderr. -/
structure RunResult where
  exitCode : Nat
  output : Option (List String)
  outFile : Option String
  queries : List String
  diags : List Diag
deriving DecidableEq

/-- The run of `main` on an already-read input file (lines 117-194): strip
lines and drop blank ones; abort with exit code 1 and no output file when no
words remain; otherwise derive the TLD filter once, process every word in
order, and write the sorted unique domains one per line, each terminated by
a newline. -/
def run (lines : List String) (dork : Option String) (verbose : Bool)
    (provider : String → Except String (List Hit)) : RunResult :=
  let words := readWords lines
  if words.isEmpty then
    ⟨1, none, none, [], [Diag.emptyInput]⟩
  else
    let fl := buildFilter dork
    let st := words.foldl (wordStep provider dork fl verbose) ⟨[], [], []⟩
    let out := pySorted st.found
    ⟨0, some out, some (String.join (out.map (· ++ "\n"))), st.queries, st.diags⟩

/-! Helper lemmas: the boolean string comparison agrees with the
lexicographic order, and `pySorted` is a sorted permutation. -/

theorem listLtB_lex : ∀ (a b : List Char), listLtB a b = true ↔ List.Lex (· < ·) a b := by
  intro a
  induction a with
  | nil =>
    intro b
    cases b with
    | nil =>
      simp only [listLtB]
      constructor
      · intro h; cases h
      · intro h; cases h
    | cons c cs =>
      simp only [listLtB]
      exact ⟨fun _ => List.Lex.nil, fun _ => trivial⟩
  | cons x xs ih =>
    intro b
    cases b with
    | nil =>
      simp only [listLtB]
      constructor
      · intro h; cases h
      · intro h; cases h
    | cons y ys =>
      simp only [listLtB]
      rcases lt_trichotomy x y with hxy | hxy | hxy
      · simp only [if_pos hxy, true_iff]
        exact List.Lex.rel hxy
      · subst hxy
        rw [if_neg (lt_irrefl x), if_neg (lt_irrefl x), ih]
        constructor
        · exact fun h => List.Lex.cons h
        · intro h
          cases h with
          | cons h => exact h
          | rel h => exact absurd h (lt_irrefl x)
      · have h1 : ¬ x < y := not_lt_of_gt hxy
        rw [if_neg h1, if_pos hxy]
        constructor
        · intro h; cases h
        · intro h
          cases h with
          | cons h' => exact absurd hxy (lt_irrefl x)
          | rel h' => exact absurd h' h1

theorem strLeB_iff (s t : String) : strLeB s t = true ↔ s ≤ t := by
  have h1 : listLtB t.toList s.toList = true ↔ t < s := by
    rw [listLtB_lex, String.lt_iff_toList_lt]
    exact Iff.rfl
  have h2 : strLeB s t = true ↔ ¬ listLtB t.toList s.toList = true := by
    unfold strLeB
    cases hb : listLtB t.toList s.toList
    · simp
    · simp
  rw [h2, h1, not_lt]

instance : IsTotal String (fun s t => strLeB s t = true) :=
  ⟨fun s t => by
    rcases le_total s t with h | h
    · exact Or.inl ((strLeB_iff s t).mpr h)
    · exact Or.inr ((strLeB_iff t s).mpr h)⟩

instance : IsTrans String (fun s t => strLeB s t = true) :=
  ⟨fun a b c hab hbc =>
    (strLeB_iff a c).mpr (le_trans ((strLeB_iff a b).mp hab) ((strLeB_iff b c).mp hbc))⟩

theorem pySorted_perm (l : List String) : List.Perm (pySorted l) l :=
  List.perm_insertionSort _ l

theorem mem_pySorted {x : String} {l : List String} : x ∈ pySorted l ↔ x ∈ l :=
  (pySorted_perm l).mem_iff

theorem pySorted_sorted (l : List String) : (pySorted l).Sorted (· ≤ ·) :=
  (List.sorted_insertionSort _ l).imp (fun h => (strLeB_iff _ _).mp h)

theorem pySorted_nodup {l : List String} (h : l.Nodup) : (pySorted l).Nodup :=
  (pySorted_perm l).nodup_iff.mpr h

theorem pySorted_eq_of_mem_iff {l₁ l₂ : List String} (h₁ : l₁.Nodup) (h₂ : l₂.Nodup)
    (h : ∀ x, x ∈ l₁ ↔ x ∈ l₂) : pySorted l₁ = pySorted l₂ :=
  List.eq_of_perm_of_sorted
    ((pySorted_perm l₁).trans (((List.perm_ext_iff_of_nodup h₁ h₂).mpr h).trans
      (pySorted_perm l₂).symm))
    (pySorted_sorted l₁) (pySorted_sorted l₂)

/-! Helper lemmas: the set model. -/

theorem mem_setAdd {s : List String} {x y : String} :
    y ∈ setAdd s x ↔ y ∈ s ∨ y = x := by
  by_cases h : x ∈ s
  · simp only [setAdd, if_pos h]
    exact ⟨Or.inl, fun hor => hor.elim id (fun he => he ▸ h)⟩
  · simp only [setAdd, if_neg h, List.mem_append, List.mem_singleton]

theorem setAdd_nodup {s : List String} {x : String} (h : s.Nodup) : (setAdd s x).Nodup := by
  by_cases hx : x ∈ s
  · simpa only [setAdd, if_pos hx]
  · simp only [setAdd, if_neg hx]
    simp [List.nodup_append, h, hx]

theorem mem_foldl_setAdd : ∀ (l : List String) (s : List String) (y : String),
    y ∈ l.foldl setAdd s ↔ y ∈ s ∨ y ∈ l := by
  intro l
  induction l with
  | nil => simp
  | cons x xs ih =>
    intro s y
    simp only [List.foldl_cons, ih, mem_setAdd, List.mem_cons]
    tauto

theorem nodup_foldl_setAdd : ∀ (l s : List String), s.Nodup → (l.foldl setAdd s).Nodup := by
  intro l
  induction l with
  | nil => exact fun s h => h
  | cons x xs ih => exact fun s h => ih _ (setAdd_nodup h)

/-! Helper lemmas: the URL pipeline. -/

/-- The per-URL parse attempt raises (as a boolean). -/
def parseFails (u : String) : Bool :=
  match urlsplit u with
  | Except.error _ => true
  | Except.ok _ => false

theorem urlsplit_ok_netloc {u sch nl : String} (h : urlsplit u = Except.ok (sch, nl)) :
    ∀ c ∈ nl.toList, isNetlocEnd c = false := by
  intro c hc
  unfold urlsplit at h
  by_cases h2 : (splitScheme u.toList).2.take 2 = ['/', '/']
  · rw [if_pos h2] at h
    by_cases h3 : badBrackets (netlocOf (splitScheme u.toList).2) = true
    · rw [if_pos h3] at h
      cases h
    · rw [if_neg h3] at h
      have hnl : nl = String.mk (netlocOf (splitScheme u.toList).2) := by
        cases h
        rfl
      rw [hnl] at hc
      have hmem : c ∈ (netlocOf (splitScheme u.toList).2) := hc
      have := List.mem_takeWhile_imp hmem
      simpa using this
  · rw [if_neg h2] at h
    have hnl : nl = "" := by
      cases h
      rfl
    rw [hnl] at hc
    cases hc

theorem stepUrl_shape {fl : Option String} {u d : String} (h : stepUrl fl u = some d) :
    ∃ sch nl, urlsplit u = Except.ok (sch, nl) ∧ nl ≠ "" ∧ acceptsHost fl nl = true ∧
      d = sch ++ "://" ++ nl ++ "/" := by
  unfold stepUrl at h
  cases hu : urlsplit u with
  | error e => rw [hu] at h; cases h
  | ok pr =>
    obtain ⟨sch, nl⟩ := pr
    rw [hu] at h
    dsimp only at h
    by_cases hn : nl = ""
    · rw [if_pos hn] at h; cases h
    · rw [if_neg hn] at h
      by_cases ha : acceptsHost fl nl = true
      · rw [if_pos ha] at h
        exact ⟨sch, nl, rfl, hn, ha, (Option.some_inj.mp h).symm⟩
      · rw [if_neg ha] at h; cases h

theorem stepUrl_of_ok {fl : Option String} {u sch nl : String}
    (h : urlsplit u = Except.ok (sch, nl)) (hn : nl ≠ "") (ha : acceptsHost fl nl = true) :
    stepUrl fl u = some (sch ++ "://" ++ nl ++ "/") := by
  unfold stepUrl
  rw [h]
  dsimp only
  rw [if_neg hn, if_pos ha]

theorem urlStep_fst (fl : Option String) (v : Bool) (st : List String × List Diag) (u : String) :
    (urlStep fl v st u).1 = match stepUrl fl u with
      | some d => setAdd st.1 d
      | none => st.1 := by
  unfold urlStep stepUrl
  cases hu : urlsplit u with
  | error e => rfl
  | ok pr =>
    obtain ⟨sch, nl⟩ := pr
    dsimp only
    by_cases hn : nl = ""
    · rw [if_pos hn, if_pos hn]
    · rw [if_neg hn, if_neg hn]
      by_cases ha : acceptsHost fl nl = true
      · rw [if_pos ha, if_pos ha]
      · rw [if_neg ha, if_neg ha]

theorem urlStep_snd_ok {u : String} (fl : Option String) (v : Bool)
    (st : List String × List Diag) (h : parseFails u = false) :
    (urlStep fl v st u).2 = st.2 := by
  unfold urlStep
  unfold parseFails at h
  cases hu : urlsplit u with
  | error e => rw [hu] at h; cases h
  | ok pr =>
    obtain ⟨sch, nl⟩ := pr
    dsimp only
    by_cases hn : nl = ""
    · rw [if_pos hn]
    · rw [if_neg hn]
      by_cases ha : acceptsHost fl nl = true
      · rw [if_pos ha]
      · rw [if_neg ha]

theorem urlStep_snd_err {u : String} (fl : Option String) (v : Bool)
    (st : List String × List Diag) (h : parseFails u = true) :
    (urlStep fl v st u).2 = st.2 ++ if v then [Diag.malformedUrl u] else [] := by
  unfold urlStep
  unfold parseFails at h
  cases hu : urlsplit u with
  | error e => rfl
  | ok pr => rw [hu] at h; cases h

theorem foldl_urlStep_fst_mem (fl : Option String) (v : Bool) :
    ∀ (urls : List String) (st : List String × List Diag) (d : String),
    d ∈ (urls.foldl (urlStep fl v) st).1 ↔ d ∈ st.1 ∨ ∃ u ∈ urls, stepUrl fl u = some d := by
  intro urls
  induction urls with
  | nil => intro st d; simp
  | cons u us ih =>
    intro st d
    rw [List.foldl_cons, ih]
    have h1 : d ∈ (urlStep fl v st u).1 ↔ d ∈ st.1 ∨ stepUrl fl u = some d := by
      rw [urlStep_fst]
      cases hs : stepUrl fl u with
      | none => simp
      | some x => simp [mem_setAdd, eq_comm]
    rw [h1]
    simp only [List.mem_cons, exists_eq_or_imp]
    tauto

theorem foldl_urlStep_fst_nodup (fl : Option String) (v : Bool) :
    ∀ (urls : List String) (st : List String × List Diag), st.1.Nodup →
    ((urls.foldl (urlStep fl v) st).1).Nodup := by
  intro urls
  induction urls with
  | nil => exact fun st h => h
  | cons u us ih =>
    intro st h
    rw [List.foldl_cons]
    apply ih
    rw [urlStep_fst]
    cases hs : stepUrl fl u with
    | none => exact h
    | some x => exact setAdd_nodup h

/-! Helper lemmas: the search adapter. -/

theorem search_fst_nodup (p : String → Except String (List Hit)) (q : String) :
    (perform_duckduckgo_search p q).1.Nodup := by
  unfold perform_duckduckgo_search
  cases hp : p q with
  | ok hits => exact nodup_foldl_setAdd _ _ List.nodup_nil
  | error e => exact List.nodup_nil

theorem mem_search_fst {p : String → Except String (List Hit)} {q : String} {hits : List Hit}
    (h : p q = Except.ok hits) (u : String) :
    u ∈ (perform_duckduckgo_search p q).1 ↔ ∃ a ∈ hits, a.href = some u := by
  unfold perform_duckduckgo_search
  rw [h]
  simp [mem_foldl_setAdd, List.mem_filterMap]

theorem search_err {p : String → Except String (List Hit)} {q : String} {e : String}
    (h : p q = Except.error e) :
    perform_duckduckgo_search p q = ([], [Diag.searchError q]) := by
  unfold perform_duckduckgo_search
  rw [h]

/-! Helper lemmas: the word loop and the run. -/

theorem wordStep_queries (p : String → Except String (List Hit)) (dork : Option String)
    (fl : Option String) (v : Bool) (st : LoopState) (w : String) :
    (wordStep p dork fl v st w).queries = st.queries ++ [mkQuery dork w] := rfl

theorem wordStep_found_mem (p : String → Except String (List Hit)) (dork : Option String)
    (fl : Option String) (v : Bool) (st : LoopState) (w : String) (d : String) :
    d ∈ (wordStep p dork fl v st w).found ↔
      d ∈ st.found ∨
        ∃ u ∈ (perform_duckduckgo_search p (mkQuery dork w)).1, stepUrl fl u = some d := by
  unfold wordStep
  exact foldl_urlStep_fst_mem fl v _ _ d

theorem wordStep_found_nodup (p : String → Except String (List Hit)) (dork : Option String)
    (fl : Option String) (v : Bool) (st : LoopState) (w : String) (h : st.found.Nodup) :
    (wordStep p dork fl v st w).found.Nodup := by
  unfold wordStep
  exact foldl_urlStep_fst_nodup fl v _ _ h

theorem foldl_wordStep_found_mem (p : String → Except String (List Hit)) (dork : Option String)
    (fl : Option String) (v : Bool) :
    ∀ (ws : List String) (st : LoopState) (d : String),
    d ∈ (ws.foldl (wordStep p dork fl v) st).found ↔
      d ∈ st.found ∨
        ∃ w ∈ ws, ∃ u ∈ (perform_duckduckgo_search p (mkQuery dork w)).1,
          stepUrl fl u = some d := by
  intro ws
  induction ws with
  | nil => intro st d; simp
  | cons w ws ih =>
    intro st d
    rw [List.foldl_cons, ih, wordStep_found_mem]
    simp only [List.mem_cons, exists_eq_or_imp]
    exact or_assoc

theorem foldl_wordStep_found_nodup (p : String → Except String (List Hit)) (dork : Option String)
    (fl : Option String) (v : Bool) :
    ∀ (ws : List String) (st : LoopState), st.found.Nodup →
    ((ws.foldl (wordStep p dork fl v) st).found).Nodup := by
  intro ws
  induction ws with
  | nil => exact fun st h => h
  | cons w ws ih =>
    intro st h
    rw [List.foldl_cons]
    exact ih _ (wordStep_found_nodup p dork fl v st w h)

theorem foldl_wordStep_queries (p : String → Except String (List Hit)) (dork : Option String)
    (fl : Option String) (v : Bool) :
    ∀ (ws : List String) (st : LoopState),
    (ws.foldl (wordStep p dork fl v) st).queries = st.queries ++ ws.map (mkQuery dork) := by
  intro ws
  induction ws with
  | nil => intro st; simp
  | cons w ws ih =>
    intro st
    rw [List.foldl_cons, ih, wordStep_queries]
    simp

/-- The loop state after processing all words, as `run` computes it. -/
def runState (lines : List String) (dork : Option String) (verbose : Bool)
    (provider : String → Except String (List Hit)) : LoopState :=
  (readWords lines).foldl (wordStep provider dork (buildFilter dork) verbose) ⟨[], [], []⟩

theorem run_empty (lines : List String) (dork : Option String) (v : Bool)
    (p : String → Except String (List Hit)) (h : readWords lines = []) :
    run lines dork v p = ⟨1, none, none, [], [Diag.emptyInput]⟩ := by
  unfold run
  rw [h]
  rfl

theorem run_nonempty (lines : List String) (dork : Option String) (v : Bool)
    (p : String → Except String (List Hit)) (h : readWords lines ≠ []) :
    run lines dork v p =
      ⟨0, some (pySorted (runState lines dork v p).found),
        some (String.join ((pySorted (runState lines dork v p).found).map (· ++ "\n"))),
        (runState lines dork v p).queries, (runState lines dork v p).diags⟩ := by
  unfold run runState
  have hb : (readWords lines).isEmpty = false := by
    cases hw : readWords lines
    · exact absurd hw h
    · rfl
  simp only [hb, Bool.false_eq_true, if_false]

/-! Helper lemmas: the dork-TLD regex search. -/

theorem isPrefixOf_iff_exists {l₁ l₂ : List Char} :
    l₁.isPrefixOf l₂ = true ↔ ∃ t, l₁ ++ t = l₂ := by
  induction l₁ generalizing l₂ with
  | nil => simp [List.isPrefixOf]
  | cons a as ih =>
    cases l₂ with
    | nil => simp [List.isPrefixOf]
    | cons b bs =>
      simp only [List.isPrefixOf, Bool.and_eq_true, beq_iff_eq, List.cons_append]
      rw [ih]
      constructor
      · rintro ⟨rfl, t, rfl⟩
        exact ⟨t, rfl⟩
      · rintro ⟨t, het⟩
        injection het with h1 h2
        exact ⟨h1, t, h2⟩

theorem dropWhile_head_false (p : Char → Bool) :
    ∀ (l : List Char) (c : Char) (cs : List Char), l.dropWhile p = c :: cs → p c = false := by
  intro l
  induction l with
  | nil => intro c cs h; cases h
  | cons x xs ih =>
    intro c cs h
    rw [List.dropWhile_cons] at h
    by_cases hx : p x = true
    · rw [if_pos hx] at h
      exact ih c cs h
    · rw [if_neg hx] at h
      injection h with h1 h2
      rw [← h1]
      exact Bool.not_eq_true _ ▸ hx

theorem findSiteMatch_eq_cons (c : Char) (cs : List Char) :
    findSiteMatch (c :: cs) =
      if sitePat.isPrefixOf (c :: cs) then
        if (((c :: cs).drop sitePat.length).takeWhile isTldChar).isEmpty then findSiteMatch cs
        else some (((c :: cs).drop sitePat.length).takeWhile isTldChar)
      else findSiteMatch cs := rfl

theorem findSiteMatch_shape : ∀ (l tld : List Char), findSiteMatch l = some tld →
    ∃ pre post, l = pre ++ (sitePat ++ (tld ++ post)) ∧ tld ≠ [] ∧
      (∀ c ∈ tld, isTldChar c = true) ∧
      (post = [] ∨ ∃ c' cs', post = c' :: cs' ∧ isTldChar c' = false) := by
  intro l
  induction l with
  | nil => intro tld h; cases h
  | cons c cs ih =>
    intro tld h
    rw [findSiteMatch_eq_cons] at h
    by_cases hp : sitePat.isPrefixOf (c :: cs) = true
    · rw [if_pos hp] at h
      by_cases he : (((c :: cs).drop sitePat.length).takeWhile isTldChar).isEmpty = true
      · rw [if_pos he] at h
        obtain ⟨pre, post, heq, hne, hcls, hmax⟩ := ih tld h
        exact ⟨c :: pre, post, by rw [List.cons_append, heq], hne, hcls, hmax⟩
      · rw [if_neg he] at h
        obtain ⟨t, het⟩ := isPrefixOf_iff_exists.mp hp
        have hdrop : (c :: cs).drop sitePat.length = t := by
          rw [← het]
          exact List.drop_left sitePat t
        rw [hdrop] at h he
        have htld : tld = t.takeWhile isTldChar := (Option.some_inj.mp h).symm
        refine ⟨[], t.dropWhile isTldChar, ?_, ?_, ?_, ?_⟩
        · rw [List.nil_append, ← het, htld, List.takeWhile_append_dropWhile]
        · rw [htld]
          intro hnil
          rw [hnil] at he
          exact he rfl
        · intro x hx
          rw [htld] at hx
          exact List.mem_takeWhile_imp hx
        · cases hd : t.dropWhile isTldChar with
          | nil => exact Or.inl rfl
          | cons c' cs' => exact Or.inr ⟨c', cs', rfl, dropWhile_head_false isTldChar t c' cs' hd⟩
    · rw [if_neg hp] at h
      obtain ⟨pre, post, heq, hne, hcls, hmax⟩ := ih tld h
      exact ⟨c :: pre, post, by rw [List.cons_append, heq], hne, hcls, hmax⟩

theorem findSiteMatch_isSome : ∀ (pre tld post : List Char),
    tld ≠ [] → (∀ c ∈ tld, isTldChar c = true) →
    (findSiteMatch (pre ++ (sitePat ++ (tld ++ post)))).isSome = true := by
  intro pre
  induction pre with
  | nil =>
    intro tld post hne hcls
    obtain ⟨c, cs, rfl⟩ := List.exists_cons_of_ne_nil hne
    have hc0 : isTldChar c = true := hcls c (List.mem_cons_self c cs)
    rw [List.nil_append]
    have hshape : sitePat ++ (c :: cs ++ post) = 's' :: ("ite:*.".toList ++ (c :: cs ++ post)) :=
      rfl
    rw [hshape, findSiteMatch_eq_cons]
    have hpre : sitePat.isPrefixOf ('s' :: ("ite:*.".toList ++ (c :: cs ++ post))) = true :=
      isPrefixOf_iff_exists.mpr ⟨c :: cs ++ post, rfl⟩
    rw [if_pos hpre]
    have hdrop : ('s' :: ("ite:*.".toList ++ (c :: cs ++ post))).drop sitePat.length =
        c :: (cs ++ post) := rfl
    rw [hdrop, List.takeWhile_cons, if_pos hc0]
    rw [if_neg (by simp)]
    rfl
  | cons a pre ih =>
    intro tld post hne hcls
    rw [List.cons_append, findSiteMatch_eq_cons]
    by_cases hp : sitePat.isPrefixOf (a :: (pre ++ (sitePat ++ (tld ++ post)))) = true
    · rw [if_pos hp]
      by_cases he : (((a :: (pre ++ (sitePat ++ (tld ++ post)))).drop
          sitePat.length).takeWhile isTldChar).isEmpty = true
      · rw [if_pos he]
        exact ih tld post hne hcls
      · rw [if_neg he]
        rfl
    · rw [if_neg hp]
      exact ih tld post hne hcls

theorem foldl_urlStep_silent (fl : Option String) :
    ∀ (urls : List String) (st : List String × List Diag),
    (urls.foldl (urlStep fl false) st).2 = st.2 := by
  intro urls
  induction urls with
  | nil => intro st; rfl
  | cons u us ih =>
    intro st
    rw [List.foldl_cons, ih]
    by_cases h : parseFails u = true
    · rw [urlStep_snd_err fl false st h]
      simp
    · rw [urlStep_snd_ok fl false st (Bool.not_eq_true _ ▸ h)]

theorem run_output_mem {lines : List String} {dork : Option String} {v : Bool}
    {p : String → Except String (List Hit)} {out : List String}
    (ho : (run lines dork v p).output = some out) (d : String) :
    d ∈ out ↔ ∃ w ∈ readWords lines,
      ∃ u ∈ (perform_duckduckgo_search p (mkQuery dork w)).1,
        stepUrl (buildFilter dork) u = some d := by
  by_cases hw : readWords lines = []
  · rw [run_empty lines dork v p hw] at ho
    cases ho
  · rw [run_nonempty lines dork v p hw] at ho
    have hout : out = pySorted (runState lines dork v p).found := (Option.some_inj.mp ho).symm
    rw [hout, mem_pySorted]
    unfold runState
    rw [foldl_wordStep_found_mem]
    simp

/-- C1: when the dork yields the TLD filter `.xyz`, every domain written to
the output file has the shape `scheme://netloc/` where the lower-cased netloc
ends with `.xyz`; the filter string was lower-cased when it was built, and
each candidate netloc is lower-cased before the suffix comparison. -/
theorem C1_tld_filter_output (lines : List String) (dork : Option String) (v : Bool)
    (p : String → Except String (List Hit)) (out : List String) (d : String)
    (hf : buildFilter dork = some ".xyz")
    (ho : (run lines dork v p).output = some out) (hd : d ∈ out) :
    ∃ sch nl, d = sch ++ "://" ++ nl ++ "/" ∧ pyEndsWith (pyLower nl) ".xyz" = true := by
  obtain ⟨w, hw, u, hu, hstep⟩ := (run_output_mem ho d).mp hd
  obtain ⟨sch, nl, hok, hn, ha, hdq⟩ := stepUrl_shape hstep
  refine ⟨sch, nl, hdq, ?_⟩
  rw [hf] at ha
  exact ha

/-- C1 witness: a concrete run with dork `site:*.xyz` keeps `http://A.xyz/`
and the theorem yields its shape and suffix. -/
theorem C1_tld_filter_output_witness :
    ∃ sch nl, "http://A.xyz/" = sch ++ "://" ++ nl ++ "/" ∧
      pyEndsWith (pyLower nl) ".xyz" = true :=
  C1_tld_filter_output ["w"] (some "site:*.xyz") false
    (fun _ => Except.ok [⟨some "http://A.xyz/p"⟩, ⟨some "http://b.net/q"⟩])
    ["http://A.xyz/"] "http://A.xyz/" (by decide) (by decide) (by decide)

/-- C2: a raw URL the normalizer accepts (parse succeeds with a non-empty
netloc) contributes, with no filter active, exactly the string
`scheme ++ "://" ++ netloc ++ "/"`, whose netloc contains no `/`, `?` or `#`
(path, query and fragment discarded, exactly one trailing slash); and the
concrete run on `ftp://x.org/a/b?c=1` outputs exactly `ftp://x.org/`. -/
theorem C2_normalize_shape :
    (∀ url sch nl, urlsplit url = Except.ok (sch, nl) → nl ≠ "" →
      stepUrl none url = some (sch ++ "://" ++ nl ++ "/") ∧
      ∀ c ∈ nl.toList, isNetlocEnd c = false) ∧
    (run ["w"] none false (fun _ => Except.ok [⟨some "ftp://x.org/a/b?c=1"⟩])).output =
      some ["ftp://x.org/"] := by
  constructor
  · intro url sch nl hok hn
    exact ⟨stepUrl_of_ok hok hn rfl, urlsplit_ok_netloc hok⟩
  · decide

/-- C2 witness: the normalizer shape evaluated at `ftp://x.org/a/b?c=1`. -/
theorem C2_normalize_shape_witness :
    stepUrl none "ftp://x.org/a/b?c=1" = some ("ftp" ++ "://" ++ "x.org" ++ "/") :=
  (C2_normalize_shape.1 "ftp://x.org/a/b?c=1" "ftp" "x.org" (by decide) (by decide)).1

/-- C3: whenever an output file is written, its lines are in ascending
lexicographic order with no duplicates, and the file text is exactly those
lines each terminated by a newline. -/
theorem C3_sorted_output (lines : List String) (dork : Option String) (v : Bool)
    (p : String → Except String (List Hit)) (out : List String)
    (ho : (run lines dork v p).output = some out) :
    out.Sorted (· ≤ ·) ∧ out.Nodup ∧
      (run lines dork v p).outFile = some (String.join (out.map (· ++ "\n"))) := by
  by_cases hw : readWords lines = []
  · rw [run_empty lines dork v p hw] at ho
    cases ho
  · have hr := run_nonempty lines dork v p hw
    rw [hr] at ho
    have hout : out = pySorted (runState lines dork v p).found := (Option.some_inj.mp ho).symm
    have hnd : (runState lines dork v p).found.Nodup := by
      unfold runState
      exact foldl_wordStep_found_nodup p dork (buildFilter dork) v _ _ List.nodup_nil
    refine ⟨?_, ?_, ?_⟩
    · rw [hout]
      exact pySorted_sorted _
    · rw [hout]
      exact pySorted_nodup hnd
    · rw [hr, hout]

/-- C3 witness: a concrete run whose provider reports three URLs on two
domains, out of order and with a duplicate. -/
theorem C3_sorted_output_witness :
    List.Sorted (· ≤ ·) ["http://a.com/", "http://b.com/"] ∧
    ["http://a.com/", "http://b.com/"].Nodup ∧
    (run ["w"] none false
      (fun _ => Except.ok
        [⟨some "http://b.com/x"⟩, ⟨some "http://a.com/y"⟩, ⟨some "http://b.com/z"⟩])).outFile =
      some (String.join (["http://a.com/", "http://b.com/"].map (· ++ "\n"))) :=
  C3_sorted_output ["w"] none false
    (fun _ => Except.ok
      [⟨some "http://b.com/x"⟩, ⟨some "http://a.com/y"⟩, ⟨some "http://b.com/z"⟩])
    ["http://a.com/", "http://b.com/"] (by decide)

/-- C4: the dork TLD filter.  With no dork there is no filter and every
netloc is accepted.  The pattern matches exactly when the dork contains the
literal `site:*.` followed by at least one character of the class
`[a-zA-Z0-9\-.]`.  When it matches, the filter is `"." ++ capture.lower()`
for the captured run, and exactly the netlocs whose lower-cased form ends
with that filter are accepted.  When the dork is present but the pattern is
absent there is no filter (every netloc accepted), while the dork is still
appended to every query. -/
theorem C4_buildFilter (d : String) :
    buildFilter none = none ∧
    (∀ h, acceptsHost (buildFilter none) h = true) ∧
    ((∃ tld, findSiteMatch d.toList = some tld) ↔
      ∃ pre tld post, d.toList = pre ++ (sitePat ++ (tld ++ post)) ∧ tld ≠ [] ∧
        ∀ c ∈ tld, isTldChar c = true) ∧
    (∀ tld, findSiteMatch d.toList = some tld →
      buildFilter (some d) = some ("." ++ pyLower (String.mk tld)) ∧
      ∀ h, acceptsHost (buildFilter (some d)) h = true ↔
        pyEndsWith (pyLower h) ("." ++ pyLower (String.mk tld)) = true) ∧
    (findSiteMatch d.toList = none →
      buildFilter (some d) = none ∧ ∀ h, acceptsHost (buildFilter (some d)) h = true) ∧
    (∀ w, mkQuery (some d) w = w ++ " " ++ d) := by
  refine ⟨rfl, fun h => rfl, ?_, ?_, ?_, fun w => rfl⟩
  · constructor
    · rintro ⟨tld, htld⟩
      obtain ⟨pre, post, heq, hne, hcls, _⟩ := findSiteMatch_shape d.toList tld htld
      exact ⟨pre, tld, post, heq, hne, hcls⟩
    · rintro ⟨pre, tld, post, heq, hne, hcls⟩
      have := findSiteMatch_isSome pre tld post hne hcls
      rw [← heq] at this
      exact Option.isSome_iff_exists.mp this
  · intro tld htld
    have hb : buildFilter (some d) = some ("." ++ pyLower (String.mk tld)) := by
      unfold buildFilter
      dsimp only
      rw [htld]
    refine ⟨hb, ?_⟩
    intro h
    rw [hb]
    exact Iff.rfl
  · intro hnone
    have hb : buildFilter (some d) = none := by
      unfold buildFilter
      dsimp only
      rw [hnone]
    refine ⟨hb, ?_⟩
    intro h
    rw [hb]
    rfl

/-- C4 witness: the filter built from dork `site:*.CoM` is the lower-cased
`.com`, accepting exactly hosts whose lower-cased netloc ends with it. -/
theorem C4_buildFilter_witness :
    buildFilter (some "site:*.CoM") = some ("." ++ pyLower (String.mk ['C', 'o', 'M'])) :=
  ((C4_buildFilter "site:*.CoM").2.2.2.1 ['C', 'o', 'M'] (by decide)).1

/-- C5: a provider exception makes the adapter return the empty list; a
provider that raises on every query still yields a completed run with exit
code 0, an empty output file, and every word's query issued in order. -/
theorem C5_fail_soft (lines : List String) (dork : Option String) (v : Bool)
    (p : String → Except String (List Hit))
    (hw : readWords lines ≠ []) (hfail : ∀ q, ∃ e, p q = Except.error e) :
    (∀ q, (perform_duckduckgo_search p q).1 = []) ∧
    (run lines dork v p).exitCode = 0 ∧
    (run lines dork v p).output = some [] ∧
    (run lines dork v p).outFile = some "" ∧
    (run lines dork v p).queries = (readWords lines).map (mkQuery dork) := by
  have had : ∀ q, perform_duckduckgo_search p q = ([], [Diag.searchError q]) := by
    intro q
    obtain ⟨e, he⟩ := hfail q
    exact search_err he
  have hfound : (runState lines dork v p).found = [] := by
    rw [List.eq_nil_iff_forall_not_mem]
    intro d hd
    unfold runState at hd
    rw [foldl_wordStep_found_mem] at hd
    rcases hd with hd | ⟨w, hww, u, hu, _⟩
    · exact (List.not_mem_nil d) hd
    · rw [had (mkQuery dork w)] at hu
      exact (List.not_mem_nil u) hu
  have hr := run_nonempty lines dork v p hw
  refine ⟨fun q => by rw [had q], by rw [hr], ?_, ?_, ?_⟩
  · rw [hr]
    show some (pySorted (runState lines dork v p).found) = some []
    rw [hfound]
    rfl
  · rw [hr]
    show some (String.join ((pySorted (runState lines dork v p).found).map (· ++ "\n"))) =
      some ""
    rw [hfound]
    rfl
  · rw [hr]
    show (runState lines dork v p).queries = (readWords lines).map (mkQuery dork)
    unfold runState
    rw [foldl_wordStep_queries]
    rfl

/-- C5 witness: a two-word run against a provider that always raises. -/
theorem C5_fail_soft_witness :
    (run ["a", "b"] none false (fun _ => Except.error "boom")).exitCode = 0 ∧
    (run ["a", "b"] none false (fun _ => Except.error "boom")).output = some [] ∧
    (run ["a", "b"] none false (fun _ => Except.error "boom")).queries = ["a", "b"] :=
  have h := C5_fail_soft ["a", "b"] none false (fun _ => Except.error "boom") (by decide)
    (fun _ => ⟨"boom", rfl⟩)
  ⟨h.2.1, h.2.2.1, h.2.2.2.2⟩

/-- C6 counterexample to the claim as stated: with verbose diagnostics
disabled, a single failing provider call still produces stderr output — the
adapter's search-error print (source line 56) is not gated by the verbose
flag. -/
theorem C6_counterexample :
    (run ["w"] none false (fun _ => Except.error "blocked")).diags ≠ [] := by decide

/-- C6 amended: a result URL that fails to parse is logged only when verbose
is enabled (and a whole loop over URLs emits no diagnostics when verbose is
off), while a failing provider call prints its diagnostic unconditionally,
regardless of verbose. -/
theorem C6_amended_diagnostics (fl : Option String) (v : Bool)
    (st : List String × List Diag) (u : String)
    (p : String → Except String (List Hit)) (q e : String)
    (hparse : parseFails u = true) (hq : p q = Except.error e) :
    (urlStep fl v st u).2 = st.2 ++ (if v then [Diag.malformedUrl u] else []) ∧
    (∀ (urls : List String) (st' : List String × List Diag),
      (urls.foldl (urlStep fl false) st').2 = st'.2) ∧
    (perform_duckduckgo_search p q).2 = [Diag.searchError q] :=
  ⟨urlStep_snd_err fl v st hparse, foldl_urlStep_silent fl, by rw [search_err hq]⟩

/-- C6 amended witness: a URL with an unbalanced bracket raises in parsing;
with verbose on it is logged, and the failing provider is logged without
verbose. -/
theorem C6_amended_diagnostics_witness :
    (urlStep none true ([], []) "http://[oops").2 =
      [] ++ (if true then [Diag.malformedUrl "http://[oops"] else []) ∧
    (perform_duckduckgo_search (fun _ => Except.error "x") "q").2 =
      [Diag.searchError "q"] :=
  have h := C6_amended_diagnostics none true ([], []) "http://[oops"
    (fun _ => Except.error "x") "q" "x" (by decide) rfl
  ⟨h.1, h.2.2⟩

/-- C7: an input whose lines are all blank after stripping aborts with exit
code 1, one diagnostic, no queries issued and no output file; a blank line
contributes nothing to the word list, and no word of any input is blank. -/
theorem C7_empty_input (lines : List String) (dork : Option String) (v : Bool)
    (p : String → Except String (List Hit)) (h : readWords lines = []) :
    run lines dork v p = ⟨1, none, none, [], [Diag.emptyInput]⟩ ∧
    (∀ l ls, pyStrip l = "" → readWords (l :: ls) = readWords ls) ∧
    (∀ ls, "" ∉ readWords ls) := by
  refine ⟨run_empty lines dork v p h, ?_, ?_⟩
  · intro l ls hl
    unfold readWords
    rw [List.map_cons, List.filter_cons, hl]
    simp
  · intro ls hmem
    have := (List.mem_filter.mp hmem).2
    simp at this

/-- C7 witness: an input of a space-only line and an empty line. -/
theorem C7_empty_input_witness :
    run [" ", ""] none false (fun _ => Except.ok []) =
      ⟨1, none, none, [], [Diag.emptyInput]⟩ :=
  (C7_empty_input [" ", ""] none false (fun _ => Except.ok []) (by decide)).1

/-- C8: on a successful provider call the adapter returns the set of `href`
URLs: the returned list has no duplicates even when hits repeat a URL, and a
URL is returned exactly when some hit carries it in its `href` field — hits
without `href` contribute nothing. -/
theorem C8_adapter_set (p : String → Except String (List Hit)) (q : String) (hits : List Hit)
    (h : p q = Except.ok hits) :
    (perform_duckduckgo_search p q).1.Nodup ∧
    ∀ u, u ∈ (perform_duckduckgo_search p q).1 ↔ ∃ a ∈ hits, a.href = some u :=
  ⟨search_fst_nodup p q, fun u => mem_search_fst h u⟩

/-- C8 witness: a hit list with a duplicated URL and an `href`-less hit
yields exactly the two distinct URLs. -/
theorem C8_adapter_set_witness :
    (perform_duckduckgo_search
        (fun _ => Except.ok [⟨some "u1"⟩, ⟨none⟩, ⟨some "u1"⟩, ⟨some "u2"⟩]) "q").1 =
      ["u1", "u2"] ∧
    (perform_duckduckgo_search
        (fun _ => Except.ok [⟨some "u1"⟩, ⟨none⟩, ⟨some "u1"⟩, ⟨some "u2"⟩]) "q").1.Nodup :=
  ⟨by decide,
    (C8_adapter_set (fun _ => Except.ok [⟨some "u1"⟩, ⟨none⟩, ⟨some "u1"⟩, ⟨some "u2"⟩]) "q"
      [⟨some "u1"⟩, ⟨none⟩, ⟨some "u1"⟩, ⟨some "u2"⟩] rfl).1⟩

/-- C9: the output file depends only on the per-query set of URLs: two
providers that succeed on every query with the same `href` URL sets — in any
order and with any duplicates — produce identical output lines and file
text, under any verbosity settings. -/
theorem C9_output_set_determined (lines : List String) (dork : Option String)
    (v₁ v₂ : Bool) (p₁ p₂ : String → Except String (List Hit))
    (hsame : ∀ q, ∃ h₁ h₂, p₁ q = Except.ok h₁ ∧ p₂ q = Except.ok h₂ ∧
      ∀ u, (∃ a ∈ h₁, a.href = some u) ↔ ∃ a ∈ h₂, a.href = some u) :
    (run lines dork v₁ p₁).output = (run lines dork v₂ p₂).output ∧
    (run lines dork v₁ p₁).outFile = (run lines dork v₂ p₂).outFile := by
  by_cases hw : readWords lines = []
  · rw [run_empty lines dork v₁ p₁ hw, run_empty lines dork v₂ p₂ hw]
    exact ⟨rfl, rfl⟩
  · have hmem : ∀ q u, u ∈ (perform_duckduckgo_search p₁ q).1 ↔
        u ∈ (perform_duckduckgo_search p₂ q).1 := by
      intro q u
      obtain ⟨h₁, h₂, e₁, e₂, hiff⟩ := hsame q
      rw [mem_search_fst e₁ u, mem_search_fst e₂ u]
      exact hiff u
    have hfound : ∀ d, d ∈ (runState lines dork v₁ p₁).found ↔
        d ∈ (runState lines dork v₂ p₂).found := by
      intro d
      unfold runState
      rw [foldl_wordStep_found_mem, foldl_wordStep_found_mem]
      constructor
      · rintro (hd | ⟨w, hww, u, hu, hstep⟩)
        · exact Or.inl hd
        · exact Or.inr ⟨w, hww, u, (hmem _ u).mp hu, hstep⟩
      · rintro (hd | ⟨w, hww, u, hu, hstep⟩)
        · exact Or.inl hd
        · exact Or.inr ⟨w, hww, u, (hmem _ u).mpr hu, hstep⟩
    have hnd₁ : (runState lines dork v₁ p₁).found.Nodup := by
      unfold runState
      exact foldl_wordStep_found_nodup p₁ dork (buildFilter dork) v₁ _ _ List.nodup_nil
    have hnd₂ : (runState lines dork v₂ p₂).found.Nodup := by
      unfold runState
      exact foldl_wordStep_found_nodup p₂ dork (buildFilter dork) v₂ _ _ List.nodup_nil
    have hsortEq : pySorted (runState lines dork v₁ p₁).found =
        pySorted (runState lines dork v₂ p₂).found :=
      pySorted_eq_of_mem_iff hnd₁ hnd₂ hfound
    rw [run_nonempty lines dork v₁ p₁ hw, run_nonempty lines dork v₂ p₂ hw]
    exact ⟨by rw [hsortEq], by rw [hsortEq]⟩

/-- C9 witness: two providers returning the same URL set in different order,
one with a duplicate, under different verbosity. -/
theorem C9_output_set_determined_witness :
    (run ["w"] none false
      (fun _ => Except.ok [⟨some "http://a.com/"⟩, ⟨some "http://b.com/"⟩])).output =
    (run ["w"] none true
      (fun _ => Except.ok
        [⟨some "http://b.com/"⟩, ⟨some "http://b.com/"⟩, ⟨some "http://a.com/"⟩])).output :=
  (C9_output_set_determined ["w"] none false true
    (fun _ => Except.ok [⟨some "http://a.com/"⟩, ⟨some "http://b.com/"⟩])
    (fun _ => Except.ok
      [⟨some "http://b.com/"⟩, ⟨some "http://b.com/"⟩, ⟨some "http://a.com/"⟩])
    (fun q => ⟨[⟨some "http://a.com/"⟩, ⟨some "http://b.com/"⟩],
      [⟨some "http://b.com/"⟩, ⟨some "http://b.com/"⟩, ⟨some "http://a.com/"⟩], rfl, rfl,
      by intro u; simp; tauto⟩)).1

/-- C10 counterexample to the claim as stated: a URL whose authority carries
userinfo is NOT discarded by the TLD filter — userinfo prefixes the netloc
and cannot defeat a suffix test.  Under filter `.com`, the netloc
`alice@site.com` still ends with `.com`, so `http://alice@site.com/x` is kept
and emitted as `http://alice@site.com/`, not discarded. -/
theorem C10_netloc_filter_counterexample :
    (run ["w"] (some "site:*.com") false
      (fun _ => Except.ok [⟨some "http://alice@site.com/x"⟩])).output =
      some ["http://alice@site.com/"] ∧
    (run ["w"] (some "site:*.com") false
      (fun _ => Except.ok [⟨some "http://alice@site.com/x"⟩])).output ≠ some [] := by
  exact ⟨by decide, by decide⟩

/-- C10 amended: the suffix comparison targets the full network-location
component, not the bare hostname: under filter `.com`, a URL whose hostname
ends in `.com` but whose authority carries a port is discarded, while
userinfo does not defeat the suffix test — `http://alice@site.com/x` passes
and is emitted as `http://alice@site.com/`; and a scheme-less URL whose
netloc passes the filter is emitted with an empty scheme, as `://x.org/`. -/
theorem C10_netloc_filter :
    acceptsHost (some ".com") "example.com:8080" = false ∧
    (run ["w"] (some "site:*.com") false
      (fun _ => Except.ok [⟨some "http://example.com:8080/x"⟩])).output = some [] ∧
    acceptsHost (some ".com") "alice@site.com" = true ∧
    (run ["w"] (some "site:*.com") false
      (fun _ => Except.ok [⟨some "http://alice@site.com/x"⟩])).output =
      some ["http://alice@site.com/"] ∧
    (run ["w"] (some "site:*.org") false
      (fun _ => Except.ok [⟨some "//x.org/a"⟩])).output = some ["://x.org/"] := by
  exact ⟨by decide, by decide, by decide, by decide, by decide⟩
